import Mathlib

set_option linter.unusedSectionVars false

/-!
Verification of the logical core of `src/vqe_simulator_dashboard.py` (the
VQE-UI dashboard): sample generation (`generate_new_data_point`), windowed
convergence detection (`check_convergence`), the 50-entry sliding-window
retention, the stop flag, the reset action (`button_click`) and the timer
scheduling (`start_data_generation`).

The embedding is parametric in a linearly ordered field `K` (the Python
floats) and in a function `rexp : K → K` standing for `np.exp`; the
theorems about the exponential decay formula instantiate `K := ℝ` and
`rexp := Real.exp`.  Randomness (`np.random.random()`) is modelled by
passing each tick one draw per method, constrained to `[0, 1)` where the
claims need it.
-/

/-- The three tracked methods, the keys of `self.data_storage`. -/
inductive Method where
  | normal_vqe
  | vqe_uccsd_hybrid
  | vqe_uccsd_hybrid_zne
deriving DecidableEq, Fintype

/-- The keys of `self.data_storage` in insertion order, the order in which
`check_convergence` iterates over `self.data_storage.items()`. -/
def methodOrder : List Method :=
  [Method.normal_vqe, Method.vqe_uccsd_hybrid, Method.vqe_uccsd_hybrid_zne]

/-- The dashboard's mutable core state: `self.data_storage` (split into its
`iterations` and `energy` lists per method), `self.current_iteration`,
`self.simulation_stopped` and `self.converged_methods`. -/
structure DashState (K : Type) where
  iterations : Method → List ℕ
  energy : Method → List K
  current_iteration : ℕ
  simulation_stopped : Bool
  converged_methods : Finset Method

variable {K : Type} [LinearOrderedField K] {α β : Type}

/-- `self.convergence_threshold = 0.001`. -/
def convergence_threshold : K := 0.001

/-- `self.convergence_window = 5`. -/
def convergence_window : ℕ := 5

/-- The asymptote offset of the decay formula: `-0.8`, `-1.0`, `-1.1`. -/
def base : Method → K
  | Method.normal_vqe => -0.8
  | Method.vqe_uccsd_hybrid => -1.0
  | Method.vqe_uccsd_hybrid_zne => -1.1

/-- The decay amplitude: `0.4`, `0.4`, `0.5`. -/
def amplitude : Method → K
  | Method.normal_vqe => 0.4
  | Method.vqe_uccsd_hybrid => 0.4
  | Method.vqe_uccsd_hybrid_zne => 0.5

/-- The decay time constant: `iteration/20`, `iteration/10`, `iteration/8`. -/
def decay : Method → K
  | Method.normal_vqe => 20
  | Method.vqe_uccsd_hybrid => 10
  | Method.vqe_uccsd_hybrid_zne => 8

/-- The noise coefficient on the uniform draw: `0.08`, `0.03`, `0.02`. -/
def noise : Method → K
  | Method.normal_vqe => 0.08
  | Method.vqe_uccsd_hybrid => 0.03
  | Method.vqe_uccsd_hybrid_zne => 0.02

/-- The post-convergence jitter coefficient: `0.001`, `0.001`, `0.0005`. -/
def jitter : Method → K
  | Method.normal_vqe => 0.001
  | Method.vqe_uccsd_hybrid => 0.001
  | Method.vqe_uccsd_hybrid_zne => 0.0005

/-- One post-convergence update: `energy[-1] + jitter * (np.random.random() - 0.5)`. -/
def postStep (m : Method) (prev u : K) : K :=
  prev + jitter m * (u - 0.5)

/-- The post-convergence random walk: the value of a converged method `n`
ticks after it froze at `v`, when the successive draws are `us 0, us 1, …`
(each tick applies `postStep` to the method's last stored energy). -/
def postWalk (m : Method) (us : ℕ → K) : ℕ → K → K
  | 0, v => v
  | n + 1, v => postStep m (postWalk m us n v) (us n)

/-- The value `generate_new_data_point` computes for method `m` at the current
state, given the method's uniform draw `u`: the decay-curve formula when the
method has not converged, otherwise a jitter step from the last stored energy
(`energy[-1]`, which Python's indexing makes fallible on an empty list, hence
the `Option`). -/
def genEnergy (rexp : K → K) (s : DashState K) (m : Method) (u : K) : Option K :=
  if m ∈ s.converged_methods then
    match (s.energy m).getLast? with
    | some prev => some (postStep m prev u)
    | none => none
  else
    some (base m - amplitude m * (1 - rexp (-(s.current_iteration : K) / decay m)) + noise m * u)

/-- Python's `l[-n:]`: the last `n` entries of `l` (all of `l` when it is
shorter than `n`). -/
def takeLast (n : ℕ) (l : List α) : List α :=
  l.drop (l.length - n)

/-- Python's `max` over a list, `none` on the empty list. -/
def listMax : List K → Option K
  | [] => none
  | a :: l => some (l.foldl max a)

/-- Python's `min` over a list, `none` on the empty list. -/
def listMin : List K → Option K
  | [] => none
  | a :: l => some (l.foldl min a)

/-- Append `(current_iteration, e)` to method `m`'s series, as the six
`append` calls of `generate_new_data_point` do. -/
def appendSample (s : DashState K) (m : Method) (e : K) : DashState K :=
  { s with
    iterations := Function.update s.iterations m (s.iterations m ++ [s.current_iteration])
    energy := Function.update s.energy m (s.energy m ++ [e]) }

/-- The body of `check_convergence` for one method: skip it when already
converged, otherwise when at least `convergence_window` energies exist compare
the max-min range of the last `convergence_window` of them against
`convergence_threshold` and mark the method converged on success. -/
def checkConvergenceOne (s : DashState K) (m : Method) : DashState K :=
  if m ∈ s.converged_methods then s
  else if convergence_window ≤ (s.energy m).length then
    match listMax (takeLast convergence_window (s.energy m)),
        listMin (takeLast convergence_window (s.energy m)) with
    | some hi, some lo =>
      if hi - lo < convergence_threshold then
        { s with converged_methods := insert m s.converged_methods }
      else s
    | _, _ => s
  else s

/-- `check_convergence`: the per-method check over `data_storage.items()` in
insertion order. -/
def checkConvergence (s : DashState K) : DashState K :=
  methodOrder.foldl checkConvergenceOne s

/-- The truncation at the end of `generate_new_data_point`: when the
`normal_vqe` iteration list has grown past 50 entries, every method's two
lists are cut to their last 50 entries (`l[-50:]`). -/
def truncateStorage (s : DashState K) : DashState K :=
  if 50 < (s.iterations Method.normal_vqe).length then
    { s with
      iterations := fun m => takeLast 50 (s.iterations m)
      energy := fun m => takeLast 50 (s.energy m) }
  else s

/-- The six `append` calls of `generate_new_data_point`: store the three new
samples, all at the current iteration. -/
def appendAll (s : DashState K) (normal_energy hybrid_energy zne_energy : K) : DashState K :=
  appendSample (appendSample (appendSample s Method.normal_vqe normal_energy)
    Method.vqe_uccsd_hybrid hybrid_energy) Method.vqe_uccsd_hybrid_zne zne_energy

/-- The status update after `check_convergence`: when all 3 methods have
converged, `generate_new_data_point` sets `self.simulation_stopped = True`. -/
def postCheckStop (s : DashState K) : DashState K :=
  if s.converged_methods.card = 3 then { s with simulation_stopped := true } else s

/-- `self.current_iteration += 1`. -/
def incrementIteration (s : DashState K) : DashState K :=
  { s with current_iteration := s.current_iteration + 1 }

/-- The state after the body of `generate_new_data_point`, once the three
energies are in hand: append, check convergence, maybe stop, increment,
truncate — in the order the Python statements run. -/
def genResult (s : DashState K) (normal_energy hybrid_energy zne_energy : K) : DashState K :=
  truncateStorage (incrementIteration (postCheckStop
    (checkConvergence (appendAll s normal_energy hybrid_energy zne_energy))))

/-- The three per-tick samples indexed by method: `normal_energy`,
`hybrid_energy`, `zne_energy`. -/
def sampleAt (normal_energy hybrid_energy zne_energy : K) : Method → K
  | Method.normal_vqe => normal_energy
  | Method.vqe_uccsd_hybrid => hybrid_energy
  | Method.vqe_uccsd_hybrid_zne => zne_energy

/-- `generate_new_data_point`: compute the three energies from the current
state, append all three samples at the current iteration, run
`check_convergence`, set `simulation_stopped` when all 3 methods have
converged, increment `current_iteration`, then truncate to the last 50
points.  `none` when a converged method's energy list is empty (Python's
`energy[-1]` would raise). -/
def generateNewDataPoint (rexp : K → K) (s : DashState K) (u : Method → K) :
    Option (DashState K) :=
  match genEnergy rexp s Method.normal_vqe (u Method.normal_vqe),
      genEnergy rexp s Method.vqe_uccsd_hybrid (u Method.vqe_uccsd_hybrid),
      genEnergy rexp s Method.vqe_uccsd_hybrid_zne (u Method.vqe_uccsd_hybrid_zne) with
  | some normal_energy, some hybrid_energy, some zne_energy =>
    some (genResult s normal_energy hybrid_energy zne_energy)
  | _, _, _ => none

/-- One invocation of the timer callback `start_data_generation`: when the
simulation is stopped or all three methods have converged, set the stop flag
(when all converged) and sample nothing; otherwise run
`generate_new_data_point`. -/
def tickFn (rexp : K → K) (s : DashState K) (u : Method → K) : Option (DashState K) :=
  if s.simulation_stopped = true ∨ 3 ≤ s.converged_methods.card then
    if 3 ≤ s.converged_methods.card then some { s with simulation_stopped := true }
    else some s
  else
    generateNewDataPoint rexp s u

/-- The reset performed by `button_click("Run Simulation")`: zero the
iteration counter, clear the converged set, clear the stop flag, empty every
series. -/
def resetFn (s : DashState K) : DashState K :=
  { s with
    current_iteration := 0
    converged_methods := ∅
    simulation_stopped := false
    iterations := fun _ => []
    energy := fun _ => [] }

/-- The state built in `__init__`: empty storage, iteration 0, not stopped,
no converged methods. -/
def initState (K : Type) [LinearOrderedField K] : DashState K :=
  { iterations := fun _ => []
    energy := fun _ => []
    current_iteration := 0
    simulation_stopped := false
    converged_methods := ∅ }

/-- The states one run of the dashboard can reach: the initial state, the
result of a timer tick with per-method draws in `[0, 1)`, and the result of
the reset button. -/
inductive Reachable (rexp : K → K) : DashState K → Prop where
  | init : Reachable rexp (initState K)
  | tick {s s' : DashState K} (u : Method → K) (hu : ∀ m, 0 ≤ u m ∧ u m < 1)
      (ht : tickFn rexp s u = some s') (hr : Reachable rexp s) : Reachable rexp s'
  | reset {s : DashState K} (hr : Reachable rexp s) : Reachable rexp (resetFn s)

/-- The core state together with whether a `root.after` timer callback is
still pending. -/
structure SysState (K : Type) where
  dash : DashState K
  timerPending : Bool

/-- Whether one invocation of `start_data_generation` schedules another: it
returns without scheduling in the stopped/all-converged branch, and after
sampling it reschedules only when the tick itself did not set
`simulation_stopped`. -/
def schedulesNext (rexp : K → K) (s : DashState K) (u : Method → K) : Bool :=
  if s.simulation_stopped = true ∨ 3 ≤ s.converged_methods.card then false
  else
    match generateNewDataPoint rexp s u with
    | some s' => !s'.simulation_stopped
    | none => false

/-- The restart button at the process level: it resets the core state and
neither consumes nor creates a pending timer callback. -/
def buttonStep (s : SysState K) : SysState K :=
  { dash := resetFn s.dash, timerPending := s.timerPending }

/-- Process-level steps: a pending timer callback fires (running
`start_data_generation` and leaving a new callback pending only when it
rescheduled), or the restart button is clicked. -/
inductive SysStep (rexp : K → K) : SysState K → SysState K → Prop where
  | timer {s : SysState K} {d' : DashState K} (u : Method → K)
      (hp : s.timerPending = true) (ht : tickFn rexp s.dash u = some d') :
      SysStep rexp s { dash := d', timerPending := schedulesNext rexp s.dash u }
  | button {s : SysState K} : SysStep rexp s (buttonStep s)

/-- The convergence condition `check_convergence` tests for a not yet
converged method: at least `convergence_window` stored energies whose last
`convergence_window` values span a range below `convergence_threshold`. -/
def convCond (s : DashState K) (m : Method) : Prop :=
  convergence_window ≤ (s.energy m).length ∧
    ∃ hi lo, listMax (takeLast convergence_window (s.energy m)) = some hi ∧
      listMin (takeLast convergence_window (s.energy m)) = some lo ∧
      hi - lo < convergence_threshold

/-- The invariant of reachable states: all series have one length, at most
50 and in fact exactly `min current_iteration 50` (every tick appended);
iteration lists pair up with energy lists and hold exactly the most recent
consecutive iteration numbers; converged methods own at least
`convergence_window` stored energies. -/
structure StateInv (s : DashState K) : Prop where
  len_eq : ∀ m, (s.energy m).length = (s.energy Method.normal_vqe).length
  len_le : ∀ m, (s.energy m).length ≤ 50
  it_len : ∀ m, (s.iterations m).length = (s.energy m).length
  it_form : ∀ m, s.iterations m =
    (List.range s.current_iteration).drop (s.current_iteration - (s.energy m).length)
  conv_len : ∀ m, m ∈ s.converged_methods → convergence_window ≤ (s.energy m).length
  len_min : ∀ m, (s.energy m).length = min s.current_iteration 50

/-! ### List helper lemmas -/

lemma takeLast_length (n : ℕ) (l : List α) :
    (takeLast n l).length = l.length - (l.length - n) := by
  simp [takeLast]

lemma takeLast_of_length_le {n : ℕ} {l : List α} (h : l.length ≤ n) :
    takeLast n l = l := by
  unfold takeLast
  have h0 : l.length - n = 0 := by omega
  simp [h0]

lemma takeLast_ne_nil {n : ℕ} {l : List α} (h1 : 1 ≤ n) (h2 : n ≤ l.length) :
    takeLast n l ≠ [] := by
  intro hnil
  have hl : (takeLast n l).length = 0 := by rw [hnil]; rfl
  rw [takeLast_length] at hl
  omega

lemma takeLast_takeLast (n k : ℕ) (l : List α) (h : k ≤ n) :
    takeLast k (takeLast n l) = takeLast k l := by
  unfold takeLast
  rw [List.drop_drop, List.length_drop]
  congr 1
  omega

lemma listMax_isSome {l : List K} (h : l ≠ []) : ∃ a, listMax l = some a := by
  cases l with
  | nil => exact absurd rfl h
  | cons a t => exact ⟨t.foldl max a, rfl⟩

lemma listMin_isSome {l : List K} (h : l ≠ []) : ∃ a, listMin l = some a := by
  cases l with
  | nil => exact absurd rfl h
  | cons a t => exact ⟨t.foldl min a, rfl⟩

lemma foldl_max_spec (l : List K) (a : K) :
    (a ≤ l.foldl max a ∧ ∀ x ∈ l, x ≤ l.foldl max a) ∧ l.foldl max a ∈ a :: l := by
  induction l generalizing a with
  | nil => simp
  | cons b t ih =>
    have ih' := ih (max a b)
    refine ⟨⟨le_trans (le_max_left a b) ih'.1.1, ?_⟩, ?_⟩
    · intro x hx
      rcases List.mem_cons.mp hx with hx | hx
      · exact le_trans (le_trans hx.le (le_max_right a b)) ih'.1.1
      · exact ih'.1.2 x hx
    · rcases List.mem_cons.mp ih'.2 with hm | hm
      · rcases max_choice a b with hab | hab
        · exact List.mem_cons.mpr (Or.inl (hm.trans hab))
        · exact List.mem_cons.mpr (Or.inr (List.mem_cons.mpr (Or.inl (hm.trans hab))))
      · exact List.mem_cons.mpr (Or.inr (List.mem_cons.mpr (Or.inr hm)))

lemma foldl_min_spec (l : List K) (a : K) :
    (l.foldl min a ≤ a ∧ ∀ x ∈ l, l.foldl min a ≤ x) ∧ l.foldl min a ∈ a :: l := by
  induction l generalizing a with
  | nil => simp
  | cons b t ih =>
    have ih' := ih (min a b)
    refine ⟨⟨le_trans ih'.1.1 (min_le_left a b), ?_⟩, ?_⟩
    · intro x hx
      rcases List.mem_cons.mp hx with hx | hx
      · exact le_trans ih'.1.1 ((min_le_right a b).trans hx.ge)
      · exact ih'.1.2 x hx
    · rcases List.mem_cons.mp ih'.2 with hm | hm
      · rcases min_choice a b with hab | hab
        · exact List.mem_cons.mpr (Or.inl (hm.trans hab))
        · exact List.mem_cons.mpr (Or.inr (List.mem_cons.mpr (Or.inl (hm.trans hab))))
      · exact List.mem_cons.mpr (Or.inr (List.mem_cons.mpr (Or.inr hm)))

lemma listMax_spec {l : List K} {a : K} (h : listMax l = some a) :
    a ∈ l ∧ ∀ x ∈ l, x ≤ a := by
  cases l with
  | nil => simp [listMax] at h
  | cons b t =>
    have hs := foldl_max_spec t b
    have ha : a = t.foldl max b := by
      simpa [listMax] using h.symm
    subst ha
    exact ⟨hs.2, by
      intro x hx
      rcases List.mem_cons.mp hx with hx | hx
      · subst hx; exact hs.1.1
      · exact hs.1.2 x hx⟩

lemma listMin_spec {l : List K} {a : K} (h : listMin l = some a) :
    a ∈ l ∧ ∀ x ∈ l, a ≤ x := by
  cases l with
  | nil => simp [listMin] at h
  | cons b t =>
    have hs := foldl_min_spec t b
    have ha : a = t.foldl min b := by
      simpa [listMin] using h.symm
    subst ha
    exact ⟨hs.2, by
      intro x hx
      rcases List.mem_cons.mp hx with hx | hx
      · subst hx; exact hs.1.1
      · exact hs.1.2 x hx⟩

/-! ### Lemmas about `check_convergence` -/

lemma checkOne_energy (s : DashState K) (m : Method) :
    (checkConvergenceOne s m).energy = s.energy := by
  unfold checkConvergenceOne
  repeat' split
  all_goals rfl

lemma checkOne_iterations (s : DashState K) (m : Method) :
    (checkConvergenceOne s m).iterations = s.iterations := by
  unfold checkConvergenceOne
  repeat' split
  all_goals rfl

lemma checkOne_cur (s : DashState K) (m : Method) :
    (checkConvergenceOne s m).current_iteration = s.current_iteration := by
  unfold checkConvergenceOne
  repeat' split
  all_goals rfl

lemma checkOne_stopped (s : DashState K) (m : Method) :
    (checkConvergenceOne s m).simulation_stopped = s.simulation_stopped := by
  unfold checkConvergenceOne
  repeat' split
  all_goals rfl

lemma convCond_congr {s₁ s₂ : DashState K} (h : s₁.energy = s₂.energy) (m : Method) :
    convCond s₁ m ↔ convCond s₂ m := by
  unfold convCond
  rw [h]

lemma checkOne_mem (s : DashState K) (m m' : Method) :
    m' ∈ (checkConvergenceOne s m).converged_methods ↔
      m' ∈ s.converged_methods ∨ (m' = m ∧ m ∉ s.converged_methods ∧ convCond s m) := by
  by_cases hc : m ∈ s.converged_methods
  · rw [checkConvergenceOne, if_pos hc]
    tauto
  rw [checkConvergenceOne, if_neg hc]
  by_cases hlen : convergence_window ≤ (s.energy m).length
  · obtain ⟨hi, hmax⟩ :=
      listMax_isSome (takeLast_ne_nil (by norm_num [convergence_window]) hlen)
    obtain ⟨lo, hmin⟩ :=
      listMin_isSome (takeLast_ne_nil (by norm_num [convergence_window]) hlen)
    rw [if_pos hlen]
    by_cases hlt : hi - lo < convergence_threshold
    · simp only [hmax, hmin, if_pos hlt, Finset.mem_insert]
      constructor
      · rintro (rfl | hmem)
        · exact Or.inr ⟨rfl, hc, hlen, hi, lo, hmax, hmin, hlt⟩
        · exact Or.inl hmem
      · rintro (hmem | ⟨rfl, -, -⟩)
        · exact Or.inr hmem
        · exact Or.inl rfl
    · simp only [hmax, hmin, if_neg hlt]
      constructor
      · exact Or.inl
      · rintro (hmem | ⟨rfl, -, -, hi', lo', hmax', hmin', hlt'⟩)
        · exact hmem
        · rw [hmax] at hmax'
          rw [hmin] at hmin'
          cases hmax'
          cases hmin'
          exact absurd hlt' hlt
  · rw [if_neg hlen]
    constructor
    · exact Or.inl
    · rintro (hmem | ⟨rfl, -, hlen', -⟩)
      · exact hmem
      · exact absurd hlen' hlen

lemma foldl_checkOne_mem (L : List Method) (s : DashState K) (m : Method) :
    m ∈ (L.foldl checkConvergenceOne s).converged_methods ↔
      m ∈ s.converged_methods ∨ (m ∈ L ∧ convCond s m) := by
  induction L generalizing s with
  | nil => simp
  | cons a L ih =>
    rw [List.foldl_cons, ih, checkOne_mem, convCond_congr (checkOne_energy s a)]
    by_cases hma : m = a
    · subst hma
      simp only [List.mem_cons, true_and, eq_self_iff_true]
      tauto
    · simp only [List.mem_cons]
      tauto

lemma foldl_checkOne_frame (L : List Method) (s : DashState K) :
    (L.foldl checkConvergenceOne s).energy = s.energy ∧
    (L.foldl checkConvergenceOne s).iterations = s.iterations ∧
    (L.foldl checkConvergenceOne s).current_iteration = s.current_iteration ∧
    (L.foldl checkConvergenceOne s).simulation_stopped = s.simulation_stopped := by
  induction L generalizing s with
  | nil => exact ⟨rfl, rfl, rfl, rfl⟩
  | cons a L ih =>
    have h := ih (checkConvergenceOne s a)
    rw [List.foldl_cons]
    exact ⟨h.1.trans (checkOne_energy s a), h.2.1.trans (checkOne_iterations s a),
      h.2.2.1.trans (checkOne_cur s a), h.2.2.2.trans (checkOne_stopped s a)⟩

lemma checkConvergence_mem (s : DashState K) (m : Method) :
    m ∈ (checkConvergence s).converged_methods ↔ m ∈ s.converged_methods ∨ convCond s m := by
  rw [checkConvergence, foldl_checkOne_mem]
  have hm : m ∈ methodOrder := by cases m <;> simp [methodOrder]
  tauto

lemma checkConvergence_energy (s : DashState K) :
    (checkConvergence s).energy = s.energy :=
  (foldl_checkOne_frame methodOrder s).1

lemma checkConvergence_iterations (s : DashState K) :
    (checkConvergence s).iterations = s.iterations :=
  (foldl_checkOne_frame methodOrder s).2.1

lemma checkConvergence_cur (s : DashState K) :
    (checkConvergence s).current_iteration = s.current_iteration :=
  (foldl_checkOne_frame methodOrder s).2.2.1

lemma checkConvergence_stopped (s : DashState K) :
    (checkConvergence s).simulation_stopped = s.simulation_stopped :=
  (foldl_checkOne_frame methodOrder s).2.2.2

lemma checkConvergence_conv_subset (s : DashState K) :
    s.converged_methods ⊆ (checkConvergence s).converged_methods := by
  intro m hm
  rw [checkConvergence_mem]
  exact Or.inl hm

/-! ### Lemmas about the sampling pipeline -/

lemma appendAll_iterations (s : DashState K) (e₀ e₁ e₂ : K) (m : Method) :
    (appendAll s e₀ e₁ e₂).iterations m = s.iterations m ++ [s.current_iteration] := by
  cases m <;> simp [appendAll, appendSample, Function.update_apply]

lemma appendAll_energy (s : DashState K) (e₀ e₁ e₂ : K) (m : Method) :
    (appendAll s e₀ e₁ e₂).energy m = s.energy m ++ [sampleAt e₀ e₁ e₂ m] := by
  cases m <;> simp [appendAll, appendSample, sampleAt, Function.update_apply]

lemma appendAll_cur (s : DashState K) (e₀ e₁ e₂ : K) :
    (appendAll s e₀ e₁ e₂).current_iteration = s.current_iteration := rfl

lemma appendAll_stopped (s : DashState K) (e₀ e₁ e₂ : K) :
    (appendAll s e₀ e₁ e₂).simulation_stopped = s.simulation_stopped := rfl

lemma appendAll_conv (s : DashState K) (e₀ e₁ e₂ : K) :
    (appendAll s e₀ e₁ e₂).converged_methods = s.converged_methods := rfl

lemma genEnergy_isSome (rexp : K → K) {s : DashState K}
    (h : ∀ m ∈ s.converged_methods, s.energy m ≠ []) (m : Method) (u : K) :
    ∃ e, genEnergy rexp s m u = some e := by
  unfold genEnergy
  split
  · rename_i hm
    cases hlast : (s.energy m).getLast? with
    | none => exact absurd (List.getLast?_eq_none_iff.mp hlast) (h m hm)
    | some prev => exact ⟨postStep m prev u, rfl⟩
  · exact ⟨_, rfl⟩

lemma postCheckStop_energy (s : DashState K) : (postCheckStop s).energy = s.energy := by
  unfold postCheckStop
  split <;> rfl

lemma postCheckStop_iterations (s : DashState K) :
    (postCheckStop s).iterations = s.iterations := by
  unfold postCheckStop
  split <;> rfl

lemma postCheckStop_cur (s : DashState K) :
    (postCheckStop s).current_iteration = s.current_iteration := by
  unfold postCheckStop
  split <;> rfl

lemma postCheckStop_conv (s : DashState K) :
    (postCheckStop s).converged_methods = s.converged_methods := by
  unfold postCheckStop
  split <;> rfl

lemma postCheckStop_stopped (s : DashState K) :
    (postCheckStop s).simulation_stopped =
      (if s.converged_methods.card = 3 then true else s.simulation_stopped) := by
  unfold postCheckStop
  split <;> simp [*]

lemma truncateStorage_energy (s : DashState K) (m : Method) :
    (truncateStorage s).energy m =
      (if 50 < (s.iterations Method.normal_vqe).length then takeLast 50 (s.energy m)
       else s.energy m) := by
  by_cases h : 50 < (s.iterations Method.normal_vqe).length
  · rw [truncateStorage, if_pos h, if_pos h]
  · rw [truncateStorage, if_neg h, if_neg h]

lemma truncateStorage_iterations (s : DashState K) (m : Method) :
    (truncateStorage s).iterations m =
      (if 50 < (s.iterations Method.normal_vqe).length then takeLast 50 (s.iterations m)
       else s.iterations m) := by
  by_cases h : 50 < (s.iterations Method.normal_vqe).length
  · rw [truncateStorage, if_pos h, if_pos h]
  · rw [truncateStorage, if_neg h, if_neg h]

lemma truncateStorage_cur (s : DashState K) :
    (truncateStorage s).current_iteration = s.current_iteration := by
  unfold truncateStorage
  split <;> rfl

lemma truncateStorage_stopped (s : DashState K) :
    (truncateStorage s).simulation_stopped = s.simulation_stopped := by
  unfold truncateStorage
  split <;> rfl

lemma truncateStorage_conv (s : DashState K) :
    (truncateStorage s).converged_methods = s.converged_methods := by
  unfold truncateStorage
  split <;> rfl

lemma genResult_conv_mem (s : DashState K) (e₀ e₁ e₂ : K) (m : Method) :
    m ∈ (genResult s e₀ e₁ e₂).converged_methods ↔
      m ∈ s.converged_methods ∨ convCond (appendAll s e₀ e₁ e₂) m := by
  rw [genResult, truncateStorage_conv, incrementIteration, postCheckStop_conv,
    checkConvergence_mem, appendAll_conv]

lemma genResult_cur (s : DashState K) (e₀ e₁ e₂ : K) :
    (genResult s e₀ e₁ e₂).current_iteration = s.current_iteration + 1 := by
  rw [genResult, truncateStorage_cur, incrementIteration, postCheckStop_cur,
    checkConvergence_cur, appendAll_cur]

lemma genResult_stopped (s : DashState K) (e₀ e₁ e₂ : K) :
    (genResult s e₀ e₁ e₂).simulation_stopped = true ↔
      s.simulation_stopped = true ∨ (genResult s e₀ e₁ e₂).converged_methods.card = 3 := by
  rw [genResult, truncateStorage_stopped, incrementIteration, truncateStorage_conv,
    postCheckStop_stopped, postCheckStop_conv, checkConvergence_stopped, appendAll_stopped]
  by_cases h : (checkConvergence (appendAll s e₀ e₁ e₂)).converged_methods.card = 3 <;>
    simp [h]

lemma incrementIteration_iterations (s : DashState K) :
    (incrementIteration s).iterations = s.iterations := rfl

lemma incrementIteration_energy (s : DashState K) :
    (incrementIteration s).energy = s.energy := rfl

lemma genResult_pre_iterations (s : DashState K) (e₀ e₁ e₂ : K) (m : Method) :
    (incrementIteration (postCheckStop (checkConvergence
      (appendAll s e₀ e₁ e₂)))).iterations m = s.iterations m ++ [s.current_iteration] := by
  rw [incrementIteration_iterations, postCheckStop_iterations, checkConvergence_iterations,
    appendAll_iterations]

lemma genResult_pre_energy (s : DashState K) (e₀ e₁ e₂ : K) (m : Method) :
    (incrementIteration (postCheckStop (checkConvergence
      (appendAll s e₀ e₁ e₂)))).energy m = s.energy m ++ [sampleAt e₀ e₁ e₂ m] := by
  rw [incrementIteration_energy, postCheckStop_energy, checkConvergence_energy, appendAll_energy]

lemma genResult_energy {s : DashState K} (hinv : StateInv s) (e₀ e₁ e₂ : K) (m : Method) :
    (genResult s e₀ e₁ e₂).energy m = takeLast 50 (s.energy m ++ [sampleAt e₀ e₁ e₂ m]) := by
  rw [genResult, truncateStorage_energy]
  simp only [genResult_pre_iterations, genResult_pre_energy]
  by_cases h : 50 < (s.iterations Method.normal_vqe ++ [s.current_iteration]).length
  · rw [if_pos h]
  · rw [if_neg h]
    refine (takeLast_of_length_le ?_).symm
    have h1 := hinv.it_len Method.normal_vqe
    have h2 := hinv.len_eq m
    simp only [List.length_append, List.length_cons, List.length_nil] at h ⊢
    omega

lemma genResult_iterations {s : DashState K} (hinv : StateInv s) (e₀ e₁ e₂ : K) (m : Method) :
    (genResult s e₀ e₁ e₂).iterations m
      = takeLast 50 (s.iterations m ++ [s.current_iteration]) := by
  rw [genResult, truncateStorage_iterations]
  simp only [genResult_pre_iterations]
  by_cases h : 50 < (s.iterations Method.normal_vqe ++ [s.current_iteration]).length
  · rw [if_pos h]
  · rw [if_neg h]
    refine (takeLast_of_length_le ?_).symm
    have h1 := hinv.it_len Method.normal_vqe
    have h2 := hinv.it_len m
    have h3 := hinv.len_eq m
    simp only [List.length_append, List.length_cons, List.length_nil] at h ⊢
    omega

lemma len_le_cur {s : DashState K} (hinv : StateInv s) (m : Method) :
    (s.energy m).length ≤ s.current_iteration := by
  have hform := hinv.it_form m
  have hlen := hinv.it_len m
  have : (s.iterations m).length
      = s.current_iteration - (s.current_iteration - (s.energy m).length) := by
    rw [hform, List.length_drop, List.length_range]
  omega

lemma genResult_inv {s : DashState K} (hinv : StateInv s) (e₀ e₁ e₂ : K) :
    StateInv (genResult s e₀ e₁ e₂) := by
  have hen := genResult_energy hinv e₀ e₁ e₂
  have hit := genResult_iterations hinv e₀ e₁ e₂
  have hcur := genResult_cur s e₀ e₁ e₂
  constructor
  · intro m
    rw [hen m, hen Method.normal_vqe, takeLast_length, takeLast_length]
    have := hinv.len_eq m
    simp only [List.length_append, List.length_cons, List.length_nil]
    omega
  · intro m
    rw [hen m, takeLast_length]
    omega
  · intro m
    rw [hen m, hit m, takeLast_length, takeLast_length]
    have := hinv.it_len m
    simp only [List.length_append, List.length_cons, List.length_nil]
    omega
  · intro m
    rw [hit m, hcur, hen m, takeLast_length]
    have hform := hinv.it_form m
    have hlen := hinv.it_len m
    have hle := len_le_cur hinv m
    have happ : s.iterations m ++ [s.current_iteration]
        = (List.range (s.current_iteration + 1)).drop
            (s.current_iteration - (s.energy m).length) := by
      rw [List.range_succ, List.drop_append_of_le_length (by rw [List.length_range]; omega),
        hform]
    rw [happ]
    unfold takeLast
    rw [List.drop_drop]
    congr 1
    simp only [List.length_drop, List.length_range, List.length_append, List.length_cons,
      List.length_nil]
    omega
  · intro m hm
    rw [genResult_conv_mem] at hm
    rw [hen m, takeLast_length]
    have h50 := hinv.len_le m
    simp only [List.length_append, List.length_cons, List.length_nil]
    rcases hm with hm | hc
    · have h5 := hinv.conv_len m hm
      simp only [convergence_window] at h5 ⊢
      omega
    · have h5 := hc.1
      rw [appendAll_energy] at h5
      simp only [convergence_window, List.length_append, List.length_cons,
        List.length_nil] at h5 ⊢
      omega
  · intro m
    rw [hen m, takeLast_length, hcur]
    have hmin := hinv.len_min m
    simp only [List.length_append, List.length_cons, List.length_nil]
    omega

/-! ### Tick-level lemmas and the reachability invariant -/

lemma conv_card_le (t : Finset Method) : t.card ≤ 3 := by
  have h := Finset.card_le_univ t
  have h3 : Fintype.card Method = 3 := rfl
  omega

lemma stopped_update_self {s : DashState K} (h : s.simulation_stopped = true) :
    ({ s with simulation_stopped := true } : DashState K) = s := by
  cases s with
  | mk its en cur st conv =>
    cases st
    · exact absurd h (by simp)
    · rfl

lemma tick_cases (rexp : K → K) {s s' : DashState K} {u : Method → K}
    (ht : tickFn rexp s u = some s') :
    (s.simulation_stopped = true ∧ s' = s) ∨
    (s.simulation_stopped = false ∧ 3 ≤ s.converged_methods.card ∧
      s' = { s with simulation_stopped := true }) ∨
    (s.simulation_stopped = false ∧ s.converged_methods.card < 3 ∧
      generateNewDataPoint rexp s u = some s') := by
  unfold tickFn at ht
  by_cases hstop : s.simulation_stopped = true
  · left
    refine ⟨hstop, ?_⟩
    rw [if_pos (Or.inl hstop)] at ht
    by_cases hcard : 3 ≤ s.converged_methods.card
    · rw [if_pos hcard] at ht
      rw [← Option.some.inj ht]
      exact stopped_update_self hstop
    · rw [if_neg hcard] at ht
      exact (Option.some.inj ht).symm
  · have hstop' : s.simulation_stopped = false := by
      cases hb : s.simulation_stopped
      · rfl
      · exact absurd hb hstop
    by_cases hcard : 3 ≤ s.converged_methods.card
    · right; left
      rw [if_pos (Or.inr hcard), if_pos hcard] at ht
      exact ⟨hstop', hcard, (Option.some.inj ht).symm⟩
    · right; right
      rw [if_neg (not_or.mpr ⟨hstop, hcard⟩)] at ht
      exact ⟨hstop', by omega, ht⟩

lemma conv_nonempty_energy {s : DashState K} (hinv : StateInv s) :
    ∀ m ∈ s.converged_methods, s.energy m ≠ [] := by
  intro m hm hnil
  have h5 := hinv.conv_len m hm
  rw [hnil] at h5
  simp [convergence_window] at h5

lemma generate_isSome (rexp : K → K) {s : DashState K} (hinv : StateInv s) (u : Method → K) :
    ∃ s', generateNewDataPoint rexp s u = some s' := by
  obtain ⟨e₀, h₀⟩ :=
    genEnergy_isSome rexp (conv_nonempty_energy hinv) Method.normal_vqe (u Method.normal_vqe)
  obtain ⟨e₁, h₁⟩ :=
    genEnergy_isSome rexp (conv_nonempty_energy hinv) Method.vqe_uccsd_hybrid
      (u Method.vqe_uccsd_hybrid)
  obtain ⟨e₂, h₂⟩ :=
    genEnergy_isSome rexp (conv_nonempty_energy hinv) Method.vqe_uccsd_hybrid_zne
      (u Method.vqe_uccsd_hybrid_zne)
  exact ⟨genResult s e₀ e₁ e₂, by rw [generateNewDataPoint, h₀, h₁, h₂]⟩

lemma tick_isSome (rexp : K → K) {s : DashState K} (hinv : StateInv s) (u : Method → K) :
    ∃ s', tickFn rexp s u = some s' := by
  unfold tickFn
  by_cases hc : s.simulation_stopped = true ∨ 3 ≤ s.converged_methods.card
  · rw [if_pos hc]
    by_cases h3 : 3 ≤ s.converged_methods.card
    · rw [if_pos h3]
      exact ⟨_, rfl⟩
    · rw [if_neg h3]
      exact ⟨_, rfl⟩
  · rw [if_neg hc]
    exact generate_isSome rexp hinv u

lemma generate_some_elim (rexp : K → K) {s s' : DashState K} {u : Method → K}
    (h : generateNewDataPoint rexp s u = some s') :
    ∃ e₀ e₁ e₂,
      genEnergy rexp s Method.normal_vqe (u Method.normal_vqe) = some e₀ ∧
      genEnergy rexp s Method.vqe_uccsd_hybrid (u Method.vqe_uccsd_hybrid) = some e₁ ∧
      genEnergy rexp s Method.vqe_uccsd_hybrid_zne (u Method.vqe_uccsd_hybrid_zne) = some e₂ ∧
      s' = genResult s e₀ e₁ e₂ := by
  unfold generateNewDataPoint at h
  split at h
  · rename_i e₀ e₁ e₂ h₀ h₁ h₂
    exact ⟨e₀, e₁, e₂, h₀, h₁, h₂, (Option.some.inj h).symm⟩
  · exact Option.noConfusion h

lemma initState_inv : StateInv (initState K) := by
  refine ⟨fun m => rfl, fun m => ?_, fun m => rfl, fun m => rfl, fun m hm => ?_, fun m => ?_⟩
  · simp [initState]
  · simp [initState] at hm
  · simp [initState]

lemma resetFn_inv (s : DashState K) : StateInv (resetFn s) := by
  refine ⟨fun m => rfl, fun m => ?_, fun m => rfl, fun m => rfl, fun m hm => ?_, fun m => ?_⟩
  · simp [resetFn]
  · simp [resetFn] at hm
  · simp [resetFn]

lemma stopped_set_inv {s : DashState K} (hinv : StateInv s) :
    StateInv ({ s with simulation_stopped := true } : DashState K) :=
  ⟨hinv.len_eq, hinv.len_le, hinv.it_len, hinv.it_form, hinv.conv_len, hinv.len_min⟩

lemma tick_inv (rexp : K → K) {s s' : DashState K} {u : Method → K}
    (hinv : StateInv s) (ht : tickFn rexp s u = some s') : StateInv s' := by
  rcases tick_cases rexp ht with ⟨-, rfl⟩ | ⟨-, -, rfl⟩ | ⟨-, -, hg⟩
  · exact hinv
  · exact stopped_set_inv hinv
  · obtain ⟨e₀, e₁, e₂, -, -, -, rfl⟩ := generate_some_elim rexp hg
    exact genResult_inv hinv e₀ e₁ e₂

lemma reachable_inv {rexp : K → K} {s : DashState K} (h : Reachable rexp s) : StateInv s := by
  induction h with
  | init => exact initState_inv
  | tick u hu ht hr ih => exact tick_inv _ ih ht
  | reset hr ih => exact resetFn_inv _

/-! ### Bounds on the post-convergence walk -/

lemma jitter_nonneg (m : Method) : 0 ≤ (jitter m : K) := by
  cases m <;> norm_num [jitter]

lemma postStep_dist {m : Method} {v u : K} (h0 : 0 ≤ u) (h1 : u < 1) :
    |postStep m v u - v| ≤ jitter m / 2 := by
  unfold postStep
  rw [add_sub_cancel_left, abs_mul, abs_of_nonneg (jitter_nonneg m)]
  have hu : |u - 0.5| ≤ 1 / 2 := by
    rw [abs_le]
    constructor <;> norm_num <;> linarith
  calc jitter m * |u - 0.5| ≤ jitter m * (1 / 2) :=
        mul_le_mul_of_nonneg_left hu (jitter_nonneg m)
    _ = jitter m / 2 := by ring

/-! ### The claims -/

/-- C1: after one run of `check_convergence`, a method is in the Convergence
Set exactly when it already was, or its Series holds at least 5 energies and
the max minus min of the last 5 is strictly below 0.001 — so with fewer than
5 samples a method is never added.  The last two conjuncts pin down
`listMax`/`listMin` as the greatest and least element of the list. -/
theorem claim1_convergence_trigger :
    (∀ (s : DashState K) (m : Method),
      m ∈ (checkConvergence s).converged_methods ↔
        m ∈ s.converged_methods ∨
          (convergence_window ≤ (s.energy m).length ∧
            ∃ hi lo, listMax (takeLast convergence_window (s.energy m)) = some hi ∧
              listMin (takeLast convergence_window (s.energy m)) = some lo ∧
              hi - lo < convergence_threshold)) ∧
    (∀ (s : DashState K) (m : Method), (s.energy m).length < convergence_window →
      (m ∈ (checkConvergence s).converged_methods ↔ m ∈ s.converged_methods)) ∧
    (∀ (l : List K) (a : K), listMax l = some a → a ∈ l ∧ ∀ x ∈ l, x ≤ a) ∧
    (∀ (l : List K) (a : K), listMin l = some a → a ∈ l ∧ ∀ x ∈ l, a ≤ x) := by
  refine ⟨?_, ?_, ?_, ?_⟩
  · intro s m
    exact checkConvergence_mem s m
  · intro s m hlt
    rw [checkConvergence_mem]
    have hnc : ¬ convCond s m := fun hc => absurd hc.1 (by omega)
    tauto
  · intro l a h
    exact listMax_spec h
  · intro l a h
    exact listMin_spec h

/-- C2: over one tick (`start_data_generation` + `generate_new_data_point`),
the stop flag is true afterwards exactly when it already was or the
Convergence Set has reached size 3; and once the flag is set, a tick appends
nothing and leaves the flag set. -/
theorem claim2_stop_at_three (rexp : K → K) (s s' : DashState K) (u : Method → K)
    (ht : tickFn rexp s u = some s') :
    (s'.simulation_stopped = true ↔
      s.simulation_stopped = true ∨ s'.converged_methods.card = 3) ∧
    (s.simulation_stopped = true →
      s'.energy = s.energy ∧ s'.iterations = s.iterations ∧ s'.simulation_stopped = true) := by
  rcases tick_cases rexp ht with ⟨hst, rfl⟩ | ⟨hst, hcard, rfl⟩ | ⟨hst, hcard, hg⟩
  · exact ⟨by simp [hst], fun _ => ⟨rfl, rfl, hst⟩⟩
  · have h3 : s.converged_methods.card = 3 := le_antisymm (conv_card_le _) hcard
    exact ⟨by simp [h3], fun h => absurd h (by simp [hst])⟩
  · obtain ⟨e₀, e₁, e₂, -, -, -, rfl⟩ := generate_some_elim rexp hg
    exact ⟨genResult_stopped s e₀ e₁ e₂, fun h => absurd h (by simp [hst])⟩

/-- C2 witness: a tick from a stopped state (the initial state with the stop
flag raised) leaves the flag raised and the storage untouched. -/
theorem claim2_stop_at_three_witness :
    (({ initState ℚ with simulation_stopped := true } : DashState ℚ).simulation_stopped = true ↔
      ({ initState ℚ with simulation_stopped := true } : DashState ℚ).simulation_stopped = true ∨
      ({ initState ℚ with
          simulation_stopped := true } : DashState ℚ).converged_methods.card = 3) ∧
    (({ initState ℚ with simulation_stopped := true } : DashState ℚ).simulation_stopped = true →
      ({ initState ℚ with simulation_stopped := true } : DashState ℚ).energy =
        ({ initState ℚ with simulation_stopped := true } : DashState ℚ).energy ∧
      ({ initState ℚ with simulation_stopped := true } : DashState ℚ).iterations =
        ({ initState ℚ with simulation_stopped := true } : DashState ℚ).iterations ∧
      ({ initState ℚ with simulation_stopped := true } : DashState ℚ).simulation_stopped
        = true) :=
  claim2_stop_at_three (fun x => x) { initState ℚ with simulation_stopped := true }
    { initState ℚ with simulation_stopped := true } (fun _ => 0) rfl

/-- C3 counterexample: for `normal_vqe`, three post-convergence ticks whose
draws are all 0 move the value 0.0015 below the frozen level — more than the
declared jitter constant 0.001, refuting the claim that every
post-convergence value stays within the jitter constant of the value at the
moment of convergence. -/
theorem claim3_jitter_counterexample :
    (∀ k : ℕ, (0 : ℚ) ≤ (fun _ : ℕ => (0 : ℚ)) k ∧ (fun _ : ℕ => (0 : ℚ)) k < 1) ∧
    ¬ (|postWalk Method.normal_vqe (fun _ => (0 : ℚ)) 3 0 - 0| ≤ jitter Method.normal_vqe) := by
  constructor
  · intro k
    norm_num
  · have hval : postWalk Method.normal_vqe (fun _ => (0 : ℚ)) 3 0 = -(3 / 2000) := by
      norm_num [postWalk, postStep, jitter]
    rw [hval, not_le, sub_zero, abs_neg, abs_of_nonneg (by norm_num : (0:ℚ) ≤ 3 / 2000)]
    norm_num [jitter]

/-- C3 amended: a post-convergence value moves by at most `jitter/2` per tick
(so consecutive values stay within the jitter bound of each other), and after
`n` ticks it is within `n · jitter/2` of the value at the moment of
convergence — but not, in general, within the jitter constant itself.  The
last conjunct ties the walk to the code: for a converged method,
`generate_new_data_point` produces exactly `postStep` of the last stored
energy. -/
theorem claim3_post_convergence_walk (m : Method) (us : ℕ → K) (v₀ : K)
    (h : ∀ k, 0 ≤ us k ∧ us k < 1) (n : ℕ) :
    |postWalk m us (n + 1) v₀ - postWalk m us n v₀| ≤ jitter m / 2 ∧
    |postWalk m us n v₀ - v₀| ≤ n * (jitter m / 2) ∧
    (∀ (rexp : K → K) (s : DashState K) (u prev : K), m ∈ s.converged_methods →
      (s.energy m).getLast? = some prev →
      genEnergy rexp s m u = some (postStep m prev u)) := by
  refine ⟨postStep_dist (h n).1 (h n).2, ?_, ?_⟩
  · induction n with
    | zero => simp [postWalk]
    | succ k ih =>
      calc |postWalk m us (k + 1) v₀ - v₀|
          ≤ |postWalk m us (k + 1) v₀ - postWalk m us k v₀| + |postWalk m us k v₀ - v₀| :=
            abs_sub_le _ _ _
        _ ≤ jitter m / 2 + k * (jitter m / 2) :=
            add_le_add (postStep_dist (h k).1 (h k).2) ih
        _ = (k + 1 : ℕ) * (jitter m / 2) := by push_cast; ring
  · intro rexp s u prev hm hlast
    rw [genEnergy, if_pos hm, hlast]

/-- C3 witness: the amended bounds at `normal_vqe`, draws all 0, one tick. -/
theorem claim3_walk_witness :
    |postWalk Method.normal_vqe (fun _ => (0 : ℚ)) (0 + 1) 0
        - postWalk Method.normal_vqe (fun _ => (0 : ℚ)) 0 0| ≤ jitter Method.normal_vqe / 2 ∧
    |postWalk Method.normal_vqe (fun _ => (0 : ℚ)) 0 0 - 0|
        ≤ (0 : ℕ) * (jitter Method.normal_vqe / 2) ∧
    (∀ (rexp : ℚ → ℚ) (s : DashState ℚ) (u prev : ℚ),
      Method.normal_vqe ∈ s.converged_methods →
      (s.energy Method.normal_vqe).getLast? = some prev →
      genEnergy rexp s Method.normal_vqe u = some (postStep Method.normal_vqe prev u)) :=
  claim3_post_convergence_walk Method.normal_vqe (fun _ => 0) 0
    (fun _ => ⟨le_refl 0, by norm_num⟩) 0

/-- C4: in every reachable state, each method's Series holds at most 50
pairs — exactly `min current_iteration 50` of them, since every tick of the
run appended one pair per method, so nothing is discarded before the 50-cap
is hit — the iteration and energy lists pair up, and the iteration list is
exactly the trailing block of consecutive tick indices: the retained entries
are precisely the 50 most recently appended ones (all of them when fewer),
oldest discarded first. -/
theorem claim4_sliding_window (rexp : K → K) (s : DashState K) (hr : Reachable rexp s)
    (m : Method) :
    (s.energy m).length ≤ 50 ∧
    (s.iterations m).length ≤ 50 ∧
    (s.energy m).length = min s.current_iteration 50 ∧
    (s.iterations m).length = (s.energy m).length ∧
    s.iterations m = (List.range s.current_iteration).drop
      (s.current_iteration - (s.iterations m).length) := by
  have hinv := reachable_inv hr
  have h1 := hinv.len_le m
  have h2 := hinv.it_len m
  have h3 := hinv.it_form m
  refine ⟨h1, by omega, hinv.len_min m, h2, ?_⟩
  rw [h2]
  exact h3

/-- C4 witness: the window facts at the (reachable) initial state. -/
theorem claim4_sliding_window_witness :
    ((initState ℚ).energy Method.normal_vqe).length ≤ 50 ∧
    ((initState ℚ).iterations Method.normal_vqe).length ≤ 50 ∧
    ((initState ℚ).energy Method.normal_vqe).length
      = min (initState ℚ).current_iteration 50 ∧
    ((initState ℚ).iterations Method.normal_vqe).length
      = ((initState ℚ).energy Method.normal_vqe).length ∧
    (initState ℚ).iterations Method.normal_vqe
      = (List.range (initState ℚ).current_iteration).drop
          ((initState ℚ).current_iteration
            - ((initState ℚ).iterations Method.normal_vqe).length) :=
  claim4_sliding_window (fun x => x) (initState ℚ) Reachable.init Method.normal_vqe

/-- C5: from any reachable state, the reset performed by
`button_click("Run Simulation")` zeroes the iteration counter, empties the
Convergence Set, clears the stop flag and empties every Series. -/
theorem claim5_reset (rexp : K → K) (s : DashState K) (_hr : Reachable rexp s) :
    (resetFn s).current_iteration = 0 ∧
    (resetFn s).converged_methods = ∅ ∧
    (resetFn s).simulation_stopped = false ∧
    (∀ m, (resetFn s).iterations m = [] ∧ (resetFn s).energy m = []) :=
  ⟨rfl, rfl, rfl, fun _ => ⟨rfl, rfl⟩⟩

/-- C5 witness: the reset facts at the (reachable) initial state. -/
theorem claim5_reset_witness :
    (resetFn (initState ℚ)).current_iteration = 0 ∧
    (resetFn (initState ℚ)).converged_methods = ∅ ∧
    (resetFn (initState ℚ)).simulation_stopped = false ∧
    (∀ m, (resetFn (initState ℚ)).iterations m = [] ∧ (resetFn (initState ℚ)).energy m = []) :=
  claim5_reset (fun x => x) (initState ℚ) Reachable.init

/-- C6: for a method outside the Convergence Set, the generated value is
exactly `base − amplitude·(1 − e^(−iteration/decay)) + noise·u`, with the
per-method constants (−0.8, 0.4, 20, 0.08), (−1.0, 0.4, 10, 0.03),
(−1.1, 0.5, 8, 0.02); in particular with the draw fixed to 0,
`vqe_uccsd_hybrid` at iteration 0 yields exactly −1.0. -/
theorem claim6_decay_formula :
    (∀ (s : DashState ℝ) (m : Method) (u : ℝ), m ∉ s.converged_methods →
      genEnergy Real.exp s m u =
        some (base m - amplitude m * (1 - Real.exp (-(s.current_iteration : ℝ) / decay m))
          + noise m * u)) ∧
    ((base Method.normal_vqe : ℝ) = -(4 / 5) ∧ (amplitude Method.normal_vqe : ℝ) = 2 / 5 ∧
      (decay Method.normal_vqe : ℝ) = 20 ∧ (noise Method.normal_vqe : ℝ) = 2 / 25) ∧
    ((base Method.vqe_uccsd_hybrid : ℝ) = -1 ∧ (amplitude Method.vqe_uccsd_hybrid : ℝ) = 2 / 5 ∧
      (decay Method.vqe_uccsd_hybrid : ℝ) = 10 ∧ (noise Method.vqe_uccsd_hybrid : ℝ) = 3 / 100) ∧
    ((base Method.vqe_uccsd_hybrid_zne : ℝ) = -(11 / 10) ∧
      (amplitude Method.vqe_uccsd_hybrid_zne : ℝ) = 1 / 2 ∧
      (decay Method.vqe_uccsd_hybrid_zne : ℝ) = 8 ∧
      (noise Method.vqe_uccsd_hybrid_zne : ℝ) = 1 / 50) ∧
    (∀ s : DashState ℝ, s.current_iteration = 0 →
      Method.vqe_uccsd_hybrid ∉ s.converged_methods →
      genEnergy Real.exp s Method.vqe_uccsd_hybrid 0 = some (-1)) := by
  refine ⟨?_, ?_, ?_, ?_, ?_⟩
  · intro s m u h
    rw [genEnergy, if_neg h]
  · norm_num [base, amplitude, decay, noise]
  · norm_num [base, amplitude, decay, noise]
  · norm_num [base, amplitude, decay, noise]
  · intro s h0 hnc
    rw [genEnergy, if_neg hnc, h0]
    norm_num [base, amplitude, decay, noise, Real.exp_zero]

/-- C7: over one tick from a reachable state, the iteration counter never
decreases; from a stopped state it (and the flag) are unchanged; a sampling
tick (not stopped, fewer than 3 converged) increments it by exactly 1 while
appending that one iteration index to all three methods; a tick that merely
raises the flag leaves it unchanged. -/
theorem claim7_iteration_counter (rexp : K → K) (s : DashState K) (u : Method → K)
    (s' : DashState K) (hr : Reachable rexp s) (ht : tickFn rexp s u = some s') :
    s.current_iteration ≤ s'.current_iteration ∧
    (s.simulation_stopped = true →
      s'.current_iteration = s.current_iteration ∧ s'.simulation_stopped = true) ∧
    (s.simulation_stopped = false → s.converged_methods.card < 3 →
      s'.current_iteration = s.current_iteration + 1 ∧
      ∀ m, s'.iterations m = takeLast 50 (s.iterations m ++ [s.current_iteration])) ∧
    (s.simulation_stopped = false → 3 ≤ s.converged_methods.card →
      s'.current_iteration = s.current_iteration) := by
  have hinv := reachable_inv hr
  rcases tick_cases rexp ht with ⟨hst, rfl⟩ | ⟨hst, hcard, rfl⟩ | ⟨hst, hcard, hg⟩
  · exact ⟨le_refl _, fun _ => ⟨rfl, hst⟩, fun hf => absurd hst (by simp [hf]),
      fun hf _ => rfl⟩
  · exact ⟨le_refl _, fun h => absurd h (by simp [hst]), fun _ h => absurd hcard (by omega),
      fun _ _ => rfl⟩
  · obtain ⟨e₀, e₁, e₂, -, -, -, rfl⟩ := generate_some_elim rexp hg
    refine ⟨?_, fun h => absurd h (by simp [hst]), ?_, fun _ h => absurd hcard (by omega)⟩
    · rw [genResult_cur]
      omega
    · exact fun _ _ => ⟨genResult_cur s e₀ e₁ e₂,
        fun m => genResult_iterations hinv e₀ e₁ e₂ m⟩

/-- C7 witness: a tick from the initial state increments the counter to 1. -/
theorem claim7_iteration_counter_witness :
    ∃ s' : DashState ℚ, tickFn (fun x => x) (initState ℚ) (fun _ => 0) = some s' ∧
      s'.current_iteration = (initState ℚ).current_iteration + 1 := by
  obtain ⟨s', hs'⟩ := tick_isSome (fun x => x) initState_inv (fun _ => (0 : ℚ))
  exact ⟨s', hs',
    ((claim7_iteration_counter (fun x => x) (initState ℚ) (fun _ => 0) s' Reachable.init
      hs').2.2.1 rfl (by decide)).1⟩

/-- C8: the Convergence Set only grows within a run: a tick never removes a
member, `check_convergence` skips (is the identity on) already-converged
methods, and only the reset empties the set. -/
theorem claim8_monotone_convergence :
    (∀ (rexp : K → K) (s s' : DashState K) (u : Method → K), tickFn rexp s u = some s' →
      s.converged_methods ⊆ s'.converged_methods) ∧
    (∀ (s : DashState K) (m : Method), m ∈ s.converged_methods →
      checkConvergenceOne s m = s) ∧
    (∀ s : DashState K, (resetFn s).converged_methods = ∅) := by
  refine ⟨?_, ?_, ?_⟩
  · intro rexp s s' u ht
    rcases tick_cases rexp ht with ⟨-, rfl⟩ | ⟨-, -, rfl⟩ | ⟨-, -, hg⟩
    · exact subset_rfl
    · exact subset_rfl
    · obtain ⟨e₀, e₁, e₂, -, -, -, rfl⟩ := generate_some_elim rexp hg
      intro m hm
      rw [genResult_conv_mem]
      exact Or.inl hm
  · intro s m hm
    rw [checkConvergenceOne, if_pos hm]
  · intro s
    rfl

/-- C9: from any reachable state every tick succeeds (no `energy[-1]` on an
empty list: a converged method's Series is non-empty), and the max/min of the
5-element window exist whenever the length guard holds — the error branches
of the embedding are unreachable. -/
theorem claim9_no_partial_ops (rexp : K → K) (s : DashState K) (hr : Reachable rexp s) :
    (∀ u : Method → K, ∃ s', tickFn rexp s u = some s') ∧
    (∀ m, m ∈ s.converged_methods → ((s.energy m).getLast?).isSome = true) ∧
    (∀ l : List K, convergence_window ≤ l.length →
      (∃ hi, listMax (takeLast convergence_window l) = some hi) ∧
      (∃ lo, listMin (takeLast convergence_window l) = some lo)) := by
  have hinv := reachable_inv hr
  refine ⟨fun u => tick_isSome rexp hinv u, ?_, ?_⟩
  · intro m hm
    rw [List.getLast?_isSome]
    exact conv_nonempty_energy hinv m hm
  · intro l hl
    have hne := takeLast_ne_nil (by norm_num [convergence_window]) hl
    exact ⟨listMax_isSome hne, listMin_isSome hne⟩

/-- C9 witness: the totality facts at the (reachable) initial state. -/
theorem claim9_no_partial_ops_witness :
    (∀ u : Method → ℚ, ∃ s', tickFn (fun x => x) (initState ℚ) u = some s') ∧
    (∀ m, m ∈ (initState ℚ).converged_methods →
      (((initState ℚ).energy m).getLast?).isSome = true) ∧
    (∀ l : List ℚ, convergence_window ≤ l.length →
      (∃ hi, listMax (takeLast convergence_window l) = some hi) ∧
      (∃ lo, listMin (takeLast convergence_window l) = some lo)) :=
  claim9_no_partial_ops (fun x => x) (initState ℚ) Reachable.init

/-- C10: once no timer callback is pending, no process step ever makes one
pending again — the timer step needs a pending callback, `start_data_generation`
schedules nothing from a stopped or fully-converged state, and the restart
button resets the data (leaving `simulation_stopped = false`, a running-looking
state) without invoking the scheduler. -/
theorem claim10_tick_free (rexp : K → K) (s s' : SysState K) (hstep : SysStep rexp s s')
    (hp : s.timerPending = false) :
    s'.timerPending = false ∧
    (∀ (d : DashState K) (u : Method → K),
      d.simulation_stopped = true ∨ 3 ≤ d.converged_methods.card →
      schedulesNext rexp d u = false) ∧
    (∀ t : SysState K, (buttonStep t).timerPending = t.timerPending ∧
      (buttonStep t).dash.simulation_stopped = false) := by
  refine ⟨?_, ?_, fun t => ⟨rfl, rfl⟩⟩
  · cases hstep with
    | timer u hpend ht => exact absurd hpend (by simp [hp])
    | button => exact hp
  · intro d u h
    rw [schedulesNext, if_pos h]

/-- C10 witness: pressing restart with no callback pending leaves none
pending, with the reset state looking like a running one. -/
theorem claim10_tick_free_witness :
    (buttonStep (⟨initState ℚ, false⟩ : SysState ℚ)).timerPending = false ∧
    (∀ (d : DashState ℚ) (u : Method → ℚ),
      d.simulation_stopped = true ∨ 3 ≤ d.converged_methods.card →
      schedulesNext (fun x => x) d u = false) ∧
    (∀ t : SysState ℚ, (buttonStep t).timerPending = t.timerPending ∧
      (buttonStep t).dash.simulation_stopped = false) :=
  claim10_tick_free (fun x => x) ⟨initState ℚ, false⟩ _ SysStep.button rfl
